import Mathlib

/-!
Verification of the 2D interval-coverage core (`canCoverRequirements` /
`canCoverDistanceRange`) of the camera-coverage module: a shallow embedding
of the TypeScript source over `ℚ`, followed by theorems about it.
-/

/-- A hardware camera with its operational ranges, as in the source interface
`HardwareCamera`. -/
structure HardwareCamera where
  id : String
  minDistance : ℚ
  maxDistance : ℚ
  minLightLevel : ℚ
  maxLightLevel : ℚ
deriving DecidableEq

/-- The desired operational range for the software camera, as in the source
interface `SoftwareCameraRequirements`. -/
structure SoftwareCameraRequirements where
  minDistance : ℚ
  maxDistance : ℚ
  minLightLevel : ℚ
  maxLightLevel : ℚ
deriving DecidableEq

/-- The loop of `canCoverDistanceRange` over the sorted camera list, with the
accumulator `coveredUpTo`: a gap (`camera.minDistance > coveredUpTo`) returns
`false`, otherwise coverage is extended to `camera.maxDistance` when that is
larger, and reaching `maxDistance` returns `true`; exhausting the list without
reaching it returns `false`. -/
def canCoverDistanceRangeLoop (maxDistance : ℚ) :
    List HardwareCamera → ℚ → Bool
  | [], _ => false
  | camera :: rest, coveredUpTo =>
    if camera.minDistance > coveredUpTo then
      false
    else
      let covered :=
        if camera.maxDistance > coveredUpTo then camera.maxDistance
        else coveredUpTo
      if covered ≥ maxDistance then true
      else canCoverDistanceRangeLoop maxDistance rest covered

/-- Source function `canCoverDistanceRange`: sort the cameras by
`minDistance`, then sweep with `canCoverDistanceRangeLoop` starting from
`coveredUpTo = minDistance`. -/
def canCoverDistanceRange (minDistance maxDistance : ℚ)
    (cameras : List HardwareCamera) : Bool :=
  let sortedCameras :=
    cameras.insertionSort (fun a b => a.minDistance ≤ b.minDistance)
  canCoverDistanceRangeLoop maxDistance sortedCameras minDistance

/-- The light pre-filter of `canCoverRequirements`: keep exactly the cameras
whose light interval is not entirely outside the required light range. -/
def relevantCameras (requirements : SoftwareCameraRequirements)
    (hardwareCameras : List HardwareCamera) : List HardwareCamera :=
  hardwareCameras.filter (fun camera =>
    !(camera.maxLightLevel < requirements.minLightLevel ||
      camera.minLightLevel > requirements.maxLightLevel))

/-- The light boundaries one camera contributes: each of its light endpoints
that falls strictly inside the required light range. -/
def cameraLightBoundaries (requirements : SoftwareCameraRequirements)
    (camera : HardwareCamera) : List ℚ :=
  (if camera.minLightLevel > requirements.minLightLevel ∧
      camera.minLightLevel < requirements.maxLightLevel
    then [camera.minLightLevel] else []) ++
  (if camera.maxLightLevel > requirements.minLightLevel ∧
      camera.maxLightLevel < requirements.maxLightLevel
    then [camera.maxLightLevel] else [])

/-- All boundary values collected into the `lightBoundaries` set: the two
requirement endpoints plus each relevant camera's strictly-inside endpoints. -/
def lightBoundaryValues (requirements : SoftwareCameraRequirements) :
    List HardwareCamera → List ℚ
  | [] => []
  | camera :: rest =>
    cameraLightBoundaries requirements camera ++
      lightBoundaryValues requirements rest

/-- The `Set`-then-`sort` of the source: the deduplicated boundary values in
ascending order. -/
def sortedLightBoundaries (requirements : SoftwareCameraRequirements)
    (relevant : List HardwareCamera) : List ℚ :=
  ((requirements.minLightLevel :: requirements.maxLightLevel ::
      lightBoundaryValues requirements relevant).dedup).insertionSort
    (fun a b => a ≤ b)

/-- The adjacent pairs of the sorted boundary list: the light segments the
loop of `canCoverRequirements` iterates over. -/
def segmentPairs : List ℚ → List (ℚ × ℚ)
  | a :: b :: rest => (a, b) :: segmentPairs (b :: rest)
  | _ => []

/-- The cameras that work at a given light level: `camerasForLightLevel` in
the source. -/
def camerasForLightLevel (relevant : List HardwareCamera) (light : ℚ) :
    List HardwareCamera :=
  relevant.filter (fun camera =>
    camera.minLightLevel ≤ light ∧ camera.maxLightLevel ≥ light)

/-- Source function `canCoverRequirements`: pre-filter by light range
(returning `false` when nothing survives), extract the sorted light
boundaries, and check distance coverage at each segment's midpoint. -/
def canCoverRequirements (requirements : SoftwareCameraRequirements)
    (hardwareCameras : List HardwareCamera) : Bool :=
  let relevant := relevantCameras requirements hardwareCameras
  if relevant.isEmpty then false
  else
    (segmentPairs (sortedLightBoundaries requirements relevant)).all
      (fun seg =>
        canCoverDistanceRange requirements.minDistance
          requirements.maxDistance
          (camerasForLightLevel relevant ((seg.1 + seg.2) / 2)))

/-- Example 1 data of the source: `basicRequirements`. -/
def basicRequirements : SoftwareCameraRequirements :=
  { minDistance := 1, maxDistance := 10
    minLightLevel := 10, maxLightLevel := 1000 }

/-- Example 1 data of the source: `basicCameras`. -/
def basicCameras : List HardwareCamera :=
  [{ id := "cam1", minDistance := 1, maxDistance := 5
     minLightLevel := 10, maxLightLevel := 1000 },
   { id := "cam2", minDistance := 4, maxDistance := 10
     minLightLevel := 10, maxLightLevel := 1000 }]

/-- Example 2 data of the source: `gapCameras`. -/
def gapCameras : List HardwareCamera :=
  [{ id := "cam1", minDistance := 1, maxDistance := 4
     minLightLevel := 10, maxLightLevel := 1000 },
   { id := "cam2", minDistance := 6, maxDistance := 10
     minLightLevel := 10, maxLightLevel := 1000 }]

/-- Example 3 data of the source: `advancedRequirements`. -/
def advancedRequirements : SoftwareCameraRequirements :=
  { minDistance := 1, maxDistance := 15
    minLightLevel := 5, maxLightLevel := 2000 }

/-- Example 3 data of the source: `advancedCameras`. -/
def advancedCameras : List HardwareCamera :=
  [{ id := "lowLightCam", minDistance := 1, maxDistance := 8
     minLightLevel := 5, maxLightLevel := 500 },
   { id := "midRangeCam", minDistance := 3, maxDistance := 12
     minLightLevel := 100, maxLightLevel := 1500 },
   { id := "brightLightCam", minDistance := 5, maxDistance := 15
     minLightLevel := 800, maxLightLevel := 2000 }]

/-! ## Semantic (specification-side) definitions

These follow the spec's words: a camera's coverage region is the product of
its distance and light intervals, and coverage of a target means every point
of the target lies in some camera's region. -/

/-- A camera's distance interval contains the point `d`. -/
def coversDistancePoint (camera : HardwareCamera) (d : ℚ) : Prop :=
  camera.minDistance ≤ d ∧ d ≤ camera.maxDistance

/-- The union of the cameras' distance intervals contains all of `[lo, hi]`. -/
def unionCoversDistance (cameras : List HardwareCamera) (lo hi : ℚ) : Prop :=
  ∀ d : ℚ, lo ≤ d → d ≤ hi → ∃ c ∈ cameras, coversDistancePoint c d

/-- A camera's coverage region (distance interval × light interval) contains
the point `(d, ℓ)`. -/
def coversPoint (camera : HardwareCamera) (d ℓ : ℚ) : Prop :=
  camera.minDistance ≤ d ∧ d ≤ camera.maxDistance ∧
    camera.minLightLevel ≤ ℓ ∧ ℓ ≤ camera.maxLightLevel

/-- The union of the cameras' coverage regions contains the whole required
rectangle. -/
def unionCoversRect (cameras : List HardwareCamera)
    (requirements : SoftwareCameraRequirements) : Prop :=
  ∀ d ℓ : ℚ, requirements.minDistance ≤ d → d ≤ requirements.maxDistance →
    requirements.minLightLevel ≤ ℓ → ℓ ≤ requirements.maxLightLevel →
    ∃ c ∈ cameras, coversPoint c d ℓ

/-- The exact condition `canCoverDistanceRange min max cameras` decides: for a
degenerate-or-inverted target (`max ≤ min`) it is the existence of a camera
whose `minDistance` does not exceed `min`; for a proper target it is genuine
union coverage of `[min, max]`. -/
def distanceDecision (minDistance maxDistance : ℚ)
    (cameras : List HardwareCamera) : Prop :=
  (maxDistance ≤ minDistance ∧ ∃ c ∈ cameras, c.minDistance ≤ minDistance) ∨
  (minDistance < maxDistance ∧ unionCoversDistance cameras minDistance maxDistance)

instance : IsTotal HardwareCamera (fun a b => a.minDistance ≤ b.minDistance) :=
  ⟨fun a b => le_total a.minDistance b.minDistance⟩

instance : IsTrans HardwareCamera (fun a b => a.minDistance ≤ b.minDistance) :=
  ⟨fun _ _ _ hab hbc => le_trans hab hbc⟩

/-- A camera whose distance interval `[1, 3]` stops short of distance 5,
light interval `[0, 10]`. -/
def narrowCam : HardwareCamera :=
  { id := "narrow", minDistance := 1, maxDistance := 3
    minLightLevel := 0, maxLightLevel := 10 }

/-- A requirement whose light interval is the single point 5. -/
def pointLightRequirements : SoftwareCameraRequirements :=
  { minDistance := 0, maxDistance := 1
    minLightLevel := 5, maxLightLevel := 5 }

/-- A camera light-compatible with everything but far away in distance. -/
def farCam : HardwareCamera :=
  { id := "far", minDistance := 10, maxDistance := 11
    minLightLevel := 0, maxLightLevel := 100 }

example : canCoverRequirements basicRequirements basicCameras = true := by
  norm_num [canCoverRequirements, relevantCameras, sortedLightBoundaries,
    lightBoundaryValues, cameraLightBoundaries, segmentPairs,
    camerasForLightLevel, canCoverDistanceRange, canCoverDistanceRangeLoop,
    basicRequirements, basicCameras, List.insertionSort, List.orderedInsert,
    List.dedup, List.pwFilter, List.filter, List.all]

example : canCoverRequirements basicRequirements gapCameras = false := by
  norm_num [canCoverRequirements, relevantCameras, sortedLightBoundaries,
    lightBoundaryValues, cameraLightBoundaries, segmentPairs,
    camerasForLightLevel, canCoverDistanceRange, canCoverDistanceRangeLoop,
    basicRequirements, gapCameras, List.insertionSort, List.orderedInsert,
    List.dedup, List.pwFilter, List.filter, List.all]

example : canCoverRequirements advancedRequirements advancedCameras = false := by
  norm_num [canCoverRequirements, relevantCameras, sortedLightBoundaries,
    lightBoundaryValues, cameraLightBoundaries, segmentPairs,
    camerasForLightLevel, canCoverDistanceRange, canCoverDistanceRangeLoop,
    advancedRequirements, advancedCameras, List.insertionSort,
    List.orderedInsert, List.dedup, List.pwFilter, List.filter, List.all]

example : canCoverRequirements basicRequirements [] = false := by decide

/-! ## Adjacent pairs of a sorted list -/

/-- Both components of an adjacent pair are members of the list. -/
theorem segmentPairs_mem : ∀ {L : List ℚ} {a b : ℚ},
    (a, b) ∈ segmentPairs L → a ∈ L ∧ b ∈ L := by
  intro L
  induction L with
  | nil => intro a b h; simp [segmentPairs] at h
  | cons y t ih =>
    intro a b h
    cases t with
    | nil => simp [segmentPairs] at h
    | cons z rest =>
      rw [segmentPairs] at h
      rcases List.mem_cons.mp h with h | h
      · rw [Prod.mk.injEq] at h
        obtain ⟨rfl, rfl⟩ := h
        exact ⟨List.mem_cons_self _ _,
          List.mem_cons_of_mem _ (List.mem_cons_self _ _)⟩
      · obtain ⟨ha, hb⟩ := ih h
        exact ⟨List.mem_cons_of_mem _ ha, List.mem_cons_of_mem _ hb⟩

/-- An adjacent pair of a pairwise-related list is related. -/
theorem segmentPairs_rel {r : ℚ → ℚ → Prop} : ∀ {L : List ℚ} {a b : ℚ},
    L.Pairwise r → (a, b) ∈ segmentPairs L → r a b := by
  intro L
  induction L with
  | nil => intro a b _ h; simp [segmentPairs] at h
  | cons y t ih =>
    intro a b hL h
    cases t with
    | nil => simp [segmentPairs] at h
    | cons z rest =>
      rw [segmentPairs] at h
      rcases List.mem_cons.mp h with h | h
      · rw [Prod.mk.injEq] at h
        obtain ⟨rfl, rfl⟩ := h
        exact (List.pairwise_cons.mp hL).1 b (List.mem_cons_self _ _)
      · exact ih (List.pairwise_cons.mp hL).2 h

/-- Adjacent pairs of the tail are adjacent pairs of the whole list. -/
theorem segmentPairs_mem_cons {t : List ℚ} {y : ℚ} {p : ℚ × ℚ}
    (h : p ∈ segmentPairs t) : p ∈ segmentPairs (y :: t) := by
  cases t with
  | nil => simp [segmentPairs] at h
  | cons z rest => exact List.mem_cons_of_mem _ h

/-- Every member of a sorted list is at least the head. -/
theorem sorted_head_le {z v : ℚ} {rest : List ℚ}
    (h : (z :: rest).Pairwise (fun a b => a ≤ b)) (hv : v ∈ z :: rest) :
    z ≤ v := by
  rcases List.mem_cons.mp hv with rfl | hv2
  · exact le_rfl
  · exact (List.pairwise_cons.mp h).1 v hv2

/-- Locating a value between two members of a sorted list: it is either a
member itself or lies strictly inside some adjacent pair. -/
theorem sorted_locate : ∀ {L : List ℚ}, L.Pairwise (fun a b => a ≤ b) →
    ∀ {x u v : ℚ}, u ∈ L → v ∈ L → u ≤ x → x ≤ v →
    x ∈ L ∨ ∃ a b : ℚ, (a, b) ∈ segmentPairs L ∧ a < x ∧ x < b := by
  intro L
  induction L with
  | nil => intro _ x u v hu _ _ _; simp at hu
  | cons y t ih =>
    intro hL x u v hu hv hux hxv
    cases t with
    | nil =>
      obtain rfl := List.mem_singleton.mp hu
      obtain rfl := List.mem_singleton.mp hv
      exact Or.inl (le_antisymm hxv hux ▸ List.mem_singleton_self _)
    | cons z rest =>
      rcases lt_or_le x z with hxz | hzx
      · have hyx : y ≤ x := by
          rcases List.mem_cons.mp hu with rfl | hu2
          · exact hux
          · exact absurd (le_trans (sorted_head_le
              (List.pairwise_cons.mp hL).2 hu2) hux) (not_le_of_lt hxz)
        rcases eq_or_lt_of_le hyx with rfl | hyx2
        · exact Or.inl (List.mem_cons_self _ _)
        · exact Or.inr ⟨y, z, List.mem_cons_self _ _, hyx2, hxz⟩
      · have hv2 : v ∈ z :: rest := by
          rcases List.mem_cons.mp hv with hvy | hv2
          · have hyz : y ≤ z :=
              (List.pairwise_cons.mp hL).1 z (List.mem_cons_self _ _)
            have hvz : v = z :=
              le_antisymm (le_trans (le_of_eq hvy) hyz)
                (le_trans hzx hxv)
            exact List.mem_cons.mpr (Or.inl hvz)
          · exact hv2
        rcases ih (List.pairwise_cons.mp hL).2 (List.mem_cons_self _ _)
            hv2 hzx hxv with hmem | ⟨a, b, hab, hax, hxb⟩
        · exact Or.inl (List.mem_cons_of_mem _ hmem)
        · exact Or.inr ⟨a, b, segmentPairs_mem_cons hab, hax, hxb⟩

/-- No member of a sorted list lies strictly inside an adjacent pair. -/
theorem sorted_gap : ∀ {L : List ℚ}, L.Pairwise (fun a b => a ≤ b) →
    ∀ {a b : ℚ}, (a, b) ∈ segmentPairs L → ∀ {v : ℚ}, v ∈ L →
    v ≤ a ∨ b ≤ v := by
  intro L
  induction L with
  | nil => intro _ a b hab; simp [segmentPairs] at hab
  | cons y t ih =>
    intro hL a b hab v hv
    cases t with
    | nil => simp [segmentPairs] at hab
    | cons z rest =>
      rw [segmentPairs] at hab
      rcases List.mem_cons.mp hab with hab | hab
      · rw [Prod.mk.injEq] at hab
        obtain ⟨ha, hb⟩ := hab
        rcases List.mem_cons.mp hv with hvy | hv2
        · exact Or.inl (le_of_eq (hvy.trans ha.symm))
        · refine Or.inr (le_trans (le_of_eq hb) ?_)
          exact sorted_head_le (List.pairwise_cons.mp hL).2 hv2
      · rcases List.mem_cons.mp hv with hvy | hv2
        · refine Or.inl (le_trans (le_of_eq hvy) ?_)
          exact (List.pairwise_cons.mp hL).1 a (segmentPairs_mem hab).1
        · exact ih (List.pairwise_cons.mp hL).2 hab hv2

/-- Every member of a sorted duplicate-free list with a strictly smaller
member has an adjacent pair ending at it. -/
theorem sorted_pred : ∀ {L : List ℚ}, L.Pairwise (fun a b => a ≤ b) →
    L.Nodup → ∀ {u v : ℚ}, u ∈ L → v ∈ L → u < v →
    ∃ a : ℚ, (a, v) ∈ segmentPairs L := by
  intro L
  induction L with
  | nil => intro _ _ u v hu _ _; simp at hu
  | cons y t ih =>
    intro hL hnd u v hu hv huv
    have hv2 : v ∈ t := by
      rcases List.mem_cons.mp hv with rfl | hv2
      · exact absurd (lt_of_lt_of_le huv (sorted_head_le hL hu))
          (lt_irrefl _)
      · exact hv2
    cases t with
    | nil => simp at hv2
    | cons z rest =>
      rcases List.mem_cons.mp hv2 with rfl | hv3
      · exact ⟨y, List.mem_cons_self _ _⟩
      · have hzv : z < v := by
          refine lt_of_le_of_ne (sorted_head_le (List.pairwise_cons.mp hL).2
            hv2) (fun h => ?_)
          exact (List.nodup_cons.mp (List.nodup_cons.mp hnd).2).1 (h ▸ hv3)
        obtain ⟨a, ha⟩ := ih (List.pairwise_cons.mp hL).2
          (List.nodup_cons.mp hnd).2 (List.mem_cons_self _ _) hv2 hzv
        exact ⟨a, segmentPairs_mem_cons ha⟩

/-- Every member of a sorted list with a strictly larger member has an
adjacent pair starting at it. -/
theorem sorted_succ : ∀ {L : List ℚ}, L.Pairwise (fun a b => a ≤ b) →
    ∀ {u v : ℚ}, u ∈ L → v ∈ L → u < v →
    ∃ b : ℚ, (u, b) ∈ segmentPairs L := by
  intro L
  induction L with
  | nil => intro _ u v hu _ _; simp at hu
  | cons y t ih =>
    intro hL u v hu hv huv
    rcases List.mem_cons.mp hu with rfl | hu2
    · have hv2 : v ∈ t := by
        rcases List.mem_cons.mp hv with rfl | hv2
        · exact absurd huv (lt_irrefl _)
        · exact hv2
      cases t with
      | nil => simp at hv2
      | cons z rest => exact ⟨z, List.mem_cons_self _ _⟩
    · have hv2 : v ∈ t := by
        rcases List.mem_cons.mp hv with rfl | hv2
        · exact absurd (lt_of_le_of_lt (sorted_head_le hL
            (List.mem_cons_of_mem _ hu2)) huv) (lt_irrefl _)
        · exact hv2
      obtain ⟨b, hb⟩ := ih (List.pairwise_cons.mp hL).2 hu2 hv2 huv
      exact ⟨b, segmentPairs_mem_cons hb⟩

/-! ## The distance sweep, characterised -/

/-- Soundness of the sweep: if the loop succeeds from accumulator `c`, then
either the target was already met at `c` and the list offers a camera
starting at or below `c`, or every point of `[c, maxDistance]` is covered by
some listed camera. Holds for any list, sorted or not. -/
theorem canCoverDistanceRangeLoop_sound (maxDistance : ℚ)
    (cameras : List HardwareCamera) (c : ℚ)
    (h : canCoverDistanceRangeLoop maxDistance cameras c = true) :
    (maxDistance ≤ c ∧ ∃ x ∈ cameras, x.minDistance ≤ c) ∨
    (c < maxDistance ∧ ∀ p : ℚ, c ≤ p → p ≤ maxDistance →
      ∃ x ∈ cameras, coversDistancePoint x p) := by
  induction cameras generalizing c with
  | nil => simp [canCoverDistanceRangeLoop] at h
  | cons x rest ih =>
    rw [canCoverDistanceRangeLoop] at h
    by_cases hgap : x.minDistance > c
    · simp [hgap] at h
    rw [if_neg hgap] at h
    push_neg at hgap
    simp only at h
    have key : ∀ covered : ℚ, c ≤ covered → x.maxDistance ≤ covered →
        (covered = c ∨ covered = x.maxDistance) →
        (if covered ≥ maxDistance then true
          else canCoverDistanceRangeLoop maxDistance rest covered) = true →
        (maxDistance ≤ c ∧ ∃ y ∈ x :: rest, y.minDistance ≤ c) ∨
        (c < maxDistance ∧ ∀ p : ℚ, c ≤ p → p ≤ maxDistance →
          ∃ y ∈ x :: rest, coversDistancePoint y p) := by
      intro covered hcc hxcov hshape hloop
      by_cases hdone : covered ≥ maxDistance
      · rcases le_or_lt maxDistance c with hmc | hmc
        · exact Or.inl ⟨hmc, x, List.mem_cons_self x rest, hgap⟩
        · refine Or.inr ⟨hmc, fun p hcp hpm => ?_⟩
          rcases hshape with rfl | hxbig
          · exact absurd hmc (not_lt_of_le hdone)
          · exact ⟨x, List.mem_cons_self x rest,
              le_trans hgap hcp, le_trans hpm (hxbig ▸ hdone)⟩
      · rw [if_neg hdone] at hloop
        push_neg at hdone
        rcases ih covered hloop with ⟨hmc, _, _, _⟩ | ⟨_, hcover⟩
        · exact absurd (lt_of_le_of_lt hmc hdone) (lt_irrefl _)
        have hcm : c < maxDistance := lt_of_le_of_lt hcc hdone
        refine Or.inr ⟨hcm, fun p hcp hpm => ?_⟩
        rcases le_or_lt covered p with hcp2 | hcp2
        · obtain ⟨w, hw, hwcov⟩ := hcover p hcp2 hpm
          exact ⟨w, List.mem_cons_of_mem x hw, hwcov⟩
        · rcases hshape with rfl | hxbig
          · exact absurd (lt_of_le_of_lt hcp hcp2) (lt_irrefl _)
          · exact ⟨x, List.mem_cons_self x rest, le_trans hgap hcp,
              le_of_lt (hxbig ▸ hcp2)⟩
    by_cases hx : x.maxDistance > c
    · rw [if_pos hx] at h
      exact key x.maxDistance (le_of_lt hx) le_rfl (Or.inr rfl) h
    · rw [if_neg hx] at h
      exact key c le_rfl (le_of_not_lt hx) (Or.inl rfl) h

/-- Completeness of the sweep, degenerate case: when the target is already
met at the accumulator, a sorted list containing any camera starting at or
below the accumulator makes the loop succeed. -/
theorem canCoverDistanceRangeLoop_complete_degenerate (maxDistance : ℚ)
    (cameras : List HardwareCamera) (c : ℚ)
    (hsorted : cameras.Pairwise (fun a b => a.minDistance ≤ b.minDistance))
    (hmc : maxDistance ≤ c) (hex : ∃ x ∈ cameras, x.minDistance ≤ c) :
    canCoverDistanceRangeLoop maxDistance cameras c = true := by
  induction cameras with
  | nil => simp at hex
  | cons x rest ih =>
    obtain ⟨w, hw, hwc⟩ := hex
    have hxc : x.minDistance ≤ c := by
      rcases List.mem_cons.mp hw with rfl | hw2
      · exact hwc
      · exact le_trans ((List.pairwise_cons.mp hsorted).1 w hw2) hwc
    rw [canCoverDistanceRangeLoop, if_neg (not_lt.mpr hxc)]
    have : (if x.maxDistance > c then x.maxDistance else c) ≥ maxDistance := by
      split
      · exact le_trans hmc (le_of_lt (by assumption))
      · exact hmc
    rw [if_pos this]

/-- Completeness of the sweep, proper case: when every point strictly above
the accumulator and up to the target is covered by some listed camera, the
loop on a sorted list succeeds. -/
theorem canCoverDistanceRangeLoop_complete (maxDistance : ℚ)
    (cameras : List HardwareCamera) (c : ℚ)
    (hsorted : cameras.Pairwise (fun a b => a.minDistance ≤ b.minDistance))
    (hcm : c < maxDistance)
    (hcover : ∀ p : ℚ, c < p → p ≤ maxDistance →
      ∃ x ∈ cameras, coversDistancePoint x p) :
    canCoverDistanceRangeLoop maxDistance cameras c = true := by
  induction cameras generalizing c with
  | nil =>
    obtain ⟨w, hw, _⟩ := hcover ((c + maxDistance) / 2)
      (by linarith) (by linarith)
    simp at hw
  | cons x rest ih =>
    have hxc : x.minDistance ≤ c := by
      by_contra hxc
      push_neg at hxc
      set q := min x.minDistance maxDistance with hq
      have hcq : c < q := lt_min hxc hcm
      obtain ⟨w, hw, hw1, hw2⟩ := hcover ((c + q) / 2)
        (by linarith) (by
          have : q ≤ maxDistance := min_le_right _ _
          linarith)
      have hwx : x.minDistance ≤ w.minDistance := by
        rcases List.mem_cons.mp hw with rfl | hw3
        · exact le_rfl
        · exact (List.pairwise_cons.mp hsorted).1 w hw3
      have hqx : q ≤ x.minDistance := min_le_left _ _
      linarith
    rw [canCoverDistanceRangeLoop, if_neg (not_lt.mpr hxc)]
    simp only
    have key : ∀ covered : ℚ, c ≤ covered → x.maxDistance ≤ covered →
        (if covered ≥ maxDistance then true
          else canCoverDistanceRangeLoop maxDistance rest covered) = true := by
      intro covered hcc hxcov
      by_cases hdone : covered ≥ maxDistance
      · rw [if_pos hdone]
      · rw [if_neg hdone]
        push_neg at hdone
        refine ih covered (List.pairwise_cons.mp hsorted).2 hdone
          (fun p hcp hpm => ?_)
        obtain ⟨w, hw, hwcov⟩ := hcover p (lt_of_le_of_lt hcc hcp) hpm
        rcases List.mem_cons.mp hw with rfl | hw2
        · exact absurd (le_trans hwcov.2 hxcov) (not_le_of_lt hcp)
        · exact ⟨w, hw2, hwcov⟩
    by_cases hx : x.maxDistance > c
    · rw [if_pos hx]
      exact key x.maxDistance (le_of_lt hx) le_rfl
    · rw [if_neg hx]
      exact key c le_rfl (le_of_not_lt hx)

/-- `canCoverDistanceRange` decides exactly `distanceDecision`: existence of a
camera reaching down to `min` when the target is degenerate or inverted, and
true union coverage of `[min, max]` otherwise. -/
theorem canCoverDistanceRange_iff (minDistance maxDistance : ℚ)
    (cameras : List HardwareCamera) :
    canCoverDistanceRange minDistance maxDistance cameras = true ↔
      distanceDecision minDistance maxDistance cameras := by
  have hperm : List.Perm
      (cameras.insertionSort (fun a b => a.minDistance ≤ b.minDistance))
      cameras := List.perm_insertionSort _ cameras
  have hsorted : (cameras.insertionSort
      (fun a b => a.minDistance ≤ b.minDistance)).Pairwise
      (fun a b => a.minDistance ≤ b.minDistance) :=
    List.sorted_insertionSort _ cameras
  rw [canCoverDistanceRange]
  constructor
  · intro h
    rcases canCoverDistanceRangeLoop_sound maxDistance _ minDistance h with
      ⟨hmc, w, hw, hwc⟩ | ⟨hcm, hcover⟩
    · exact Or.inl ⟨hmc, w, hperm.subset hw, hwc⟩
    · refine Or.inr ⟨hcm, fun p hcp hpm => ?_⟩
      obtain ⟨w, hw, hwcov⟩ := hcover p hcp hpm
      exact ⟨w, hperm.subset hw, hwcov⟩
  · rintro (⟨hmc, w, hw, hwc⟩ | ⟨hcm, hcover⟩)
    · exact canCoverDistanceRangeLoop_complete_degenerate maxDistance _
        minDistance hsorted hmc ⟨w, hperm.mem_iff.mpr hw, hwc⟩
    · refine canCoverDistanceRangeLoop_complete maxDistance _ minDistance
        hsorted hcm (fun p hcp hpm => ?_)
      obtain ⟨w, hw, hwcov⟩ := hcover p (le_of_lt hcp) hpm
      exact ⟨w, hperm.mem_iff.mpr hw, hwcov⟩

/-! ## The light boundary list -/

/-- Membership in one camera's boundary contribution. -/
theorem mem_cameraLightBoundaries {requirements : SoftwareCameraRequirements}
    {c : HardwareCamera} {v : ℚ} :
    v ∈ cameraLightBoundaries requirements c ↔
      ((requirements.minLightLevel < c.minLightLevel ∧
        c.minLightLevel < requirements.maxLightLevel ∧
        v = c.minLightLevel) ∨
       (requirements.minLightLevel < c.maxLightLevel ∧
        c.maxLightLevel < requirements.maxLightLevel ∧
        v = c.maxLightLevel)) := by
  unfold cameraLightBoundaries
  split <;> split <;> simp_all

/-- Membership in the collected boundary values. -/
theorem mem_lightBoundaryValues {requirements : SoftwareCameraRequirements} :
    ∀ {R : List HardwareCamera} {v : ℚ},
    v ∈ lightBoundaryValues requirements R ↔
      ∃ c ∈ R, v ∈ cameraLightBoundaries requirements c := by
  intro R
  induction R with
  | nil => intro v; simp [lightBoundaryValues]
  | cons c rest ih =>
    intro v
    rw [lightBoundaryValues, List.mem_append, ih]
    constructor
    · rintro (h | ⟨w, hw, hwv⟩)
      · exact ⟨c, List.mem_cons_self _ _, h⟩
      · exact ⟨w, List.mem_cons_of_mem _ hw, hwv⟩
    · rintro ⟨w, hw, hwv⟩
      rcases List.mem_cons.mp hw with rfl | hw2
      · exact Or.inl hwv
      · exact Or.inr ⟨w, hw2, hwv⟩

/-- Membership in the sorted boundary list. -/
theorem mem_sortedLightBoundaries {requirements : SoftwareCameraRequirements}
    {R : List HardwareCamera} {v : ℚ} :
    v ∈ sortedLightBoundaries requirements R ↔
      (v = requirements.minLightLevel ∨ v = requirements.maxLightLevel ∨
       ∃ c ∈ R, v ∈ cameraLightBoundaries requirements c) := by
  rw [sortedLightBoundaries, (List.perm_insertionSort _ _).mem_iff,
    List.mem_dedup, List.mem_cons, List.mem_cons, mem_lightBoundaryValues]

/-- The sorted boundary list is sorted. -/
theorem sortedLightBoundaries_sorted
    (requirements : SoftwareCameraRequirements)
    (R : List HardwareCamera) :
    (sortedLightBoundaries requirements R).Pairwise (fun a b => a ≤ b) :=
  List.sorted_insertionSort _ _

/-- The sorted boundary list has no duplicates. -/
theorem sortedLightBoundaries_nodup
    (requirements : SoftwareCameraRequirements)
    (R : List HardwareCamera) :
    (sortedLightBoundaries requirements R).Nodup :=
  (List.perm_insertionSort _ _).nodup_iff.mpr (List.nodup_dedup _)

/-- Consecutive boundaries are strictly increasing. -/
theorem sortedLightBoundaries_pairwise_lt
    (requirements : SoftwareCameraRequirements)
    (R : List HardwareCamera) :
    (sortedLightBoundaries requirements R).Pairwise (fun a b => a < b) :=
  ((sortedLightBoundaries_sorted requirements R).and
    (sortedLightBoundaries_nodup requirements R)).imp
    (fun h => lt_of_le_of_ne h.1 h.2)

/-- Every boundary lies inside the required light range. -/
theorem sortedLightBoundaries_bounds
    {requirements : SoftwareCameraRequirements} {R : List HardwareCamera}
    (hL : requirements.minLightLevel ≤ requirements.maxLightLevel)
    {v : ℚ} (hv : v ∈ sortedLightBoundaries requirements R) :
    requirements.minLightLevel ≤ v ∧ v ≤ requirements.maxLightLevel := by
  rcases mem_sortedLightBoundaries.mp hv with rfl | rfl | ⟨c, _, hc⟩
  · exact ⟨le_rfl, hL⟩
  · exact ⟨hL, le_rfl⟩
  · rcases mem_cameraLightBoundaries.mp hc with ⟨h1, h2, rfl⟩ | ⟨h1, h2, rfl⟩
    · exact ⟨le_of_lt h1, le_of_lt h2⟩
    · exact ⟨le_of_lt h1, le_of_lt h2⟩

/-- The requirement's lower light endpoint is a boundary. -/
theorem minLight_mem_sortedLightBoundaries
    (requirements : SoftwareCameraRequirements) (R : List HardwareCamera) :
    requirements.minLightLevel ∈ sortedLightBoundaries requirements R :=
  mem_sortedLightBoundaries.mpr (Or.inl rfl)

/-- The requirement's upper light endpoint is a boundary. -/
theorem maxLight_mem_sortedLightBoundaries
    (requirements : SoftwareCameraRequirements) (R : List HardwareCamera) :
    requirements.maxLightLevel ∈ sortedLightBoundaries requirements R :=
  mem_sortedLightBoundaries.mpr (Or.inr (Or.inl rfl))

/-- Membership in the per-light filter. -/
theorem mem_camerasForLightLevel {R : List HardwareCamera} {ℓ : ℚ}
    {c : HardwareCamera} :
    c ∈ camerasForLightLevel R ℓ ↔
      c ∈ R ∧ c.minLightLevel ≤ ℓ ∧ c.maxLightLevel ≥ ℓ := by
  simp [camerasForLightLevel, List.mem_filter]

/-- Membership in the light pre-filter. -/
theorem mem_relevantCameras {requirements : SoftwareCameraRequirements}
    {cameras : List HardwareCamera} {c : HardwareCamera} :
    c ∈ relevantCameras requirements cameras ↔
      c ∈ cameras ∧ ¬(c.maxLightLevel < requirements.minLightLevel ∨
        c.minLightLevel > requirements.maxLightLevel) := by
  simp [relevantCameras, List.mem_filter, not_or]

/-- A camera of `R` active anywhere strictly inside an adjacent boundary
pair is active on the whole closed pair: its light interval cannot end
strictly inside the pair, since that endpoint would itself be a boundary. -/
theorem active_on_segment {requirements : SoftwareCameraRequirements}
    {R : List HardwareCamera}
    (hL : requirements.minLightLevel ≤ requirements.maxLightLevel)
    {a b ℓ₀ : ℚ}
    (hab : (a, b) ∈ segmentPairs (sortedLightBoundaries requirements R))
    {c : HardwareCamera} (hc : c ∈ R) (ha : a < ℓ₀) (hb : ℓ₀ < b)
    (h1 : c.minLightLevel ≤ ℓ₀) (h2 : c.maxLightLevel ≥ ℓ₀) :
    c.minLightLevel ≤ a ∧ b ≤ c.maxLightLevel := by
  have hsort := sortedLightBoundaries_sorted requirements R
  have hamem := (segmentPairs_mem hab).1
  have hbmem := (segmentPairs_mem hab).2
  have hra := (sortedLightBoundaries_bounds hL hamem).1
  have hrb := (sortedLightBoundaries_bounds hL hbmem).2
  constructor
  · by_contra hmin
    push_neg at hmin
    have hminb : c.minLightLevel < b := lt_of_le_of_lt h1 hb
    have hmem : c.minLightLevel ∈ sortedLightBoundaries requirements R := by
      refine mem_sortedLightBoundaries.mpr (Or.inr (Or.inr ⟨c, hc, ?_⟩))
      exact mem_cameraLightBoundaries.mpr
        (Or.inl ⟨lt_of_le_of_lt hra hmin, lt_of_lt_of_le hminb hrb, rfl⟩)
    rcases sorted_gap hsort hab hmem with h | h
    · exact absurd (lt_of_lt_of_le hmin h) (lt_irrefl _)
    · exact absurd (lt_of_le_of_lt h hminb) (lt_irrefl _)
  · by_contra hmax
    push_neg at hmax
    have hmaxa : a < c.maxLightLevel := lt_of_lt_of_le ha h2
    have hmem : c.maxLightLevel ∈ sortedLightBoundaries requirements R := by
      refine mem_sortedLightBoundaries.mpr (Or.inr (Or.inr ⟨c, hc, ?_⟩))
      exact mem_cameraLightBoundaries.mpr
        (Or.inr ⟨lt_of_le_of_lt hra hmaxa, lt_of_lt_of_le hmax hrb, rfl⟩)
    rcases sorted_gap hsort hab hmem with h | h
    · exact absurd (lt_of_lt_of_le hmaxa h) (lt_irrefl _)
    · exact absurd (lt_of_le_of_lt h hmax) (lt_irrefl _)

/-- `distanceDecision` is monotone: any list whose members are matched by
cameras with wider distance intervals decides at least as much. -/
theorem distanceDecision_mono {minDistance maxDistance : ℚ}
    {cs cs' : List HardwareCamera}
    (h : ∀ c ∈ cs, ∃ c' ∈ cs', c'.minDistance ≤ c.minDistance ∧
      c.maxDistance ≤ c'.maxDistance)
    (hd : distanceDecision minDistance maxDistance cs) :
    distanceDecision minDistance maxDistance cs' := by
  rcases hd with ⟨hmm, w, hw, hwc⟩ | ⟨hmm, hcov⟩
  · obtain ⟨w', hw', hw1, _⟩ := h w hw
    exact Or.inl ⟨hmm, w', hw', le_trans hw1 hwc⟩
  · refine Or.inr ⟨hmm, fun p hp1 hp2 => ?_⟩
    obtain ⟨w, hw, hwc1, hwc2⟩ := hcov p hp1 hp2
    obtain ⟨w', hw', hw1, hw2⟩ := h w hw
    exact ⟨w', hw', le_trans hw1 hwc1, le_trans hwc2 hw2⟩

/-- `canCoverRequirements` as one boolean expression. -/
theorem canCoverRequirements_eq (requirements : SoftwareCameraRequirements)
    (hardwareCameras : List HardwareCamera) :
    canCoverRequirements requirements hardwareCameras =
      (!(relevantCameras requirements hardwareCameras).isEmpty &&
        (segmentPairs (sortedLightBoundaries requirements
            (relevantCameras requirements hardwareCameras))).all
          (fun seg =>
            canCoverDistanceRange requirements.minDistance
              requirements.maxDistance
              (camerasForLightLevel
                (relevantCameras requirements hardwareCameras)
                ((seg.1 + seg.2) / 2)))) := by
  rw [canCoverRequirements]
  by_cases h : (relevantCameras requirements hardwareCameras).isEmpty
  · simp [h]
  · simp [h]

/-- Transfer of a passing segment check to any light value of the closed
segment: every camera active at the midpoint is active on the whole closed
segment, so the decided distance condition holds there as well. -/
theorem segment_transfer {requirements : SoftwareCameraRequirements}
    {R : List HardwareCamera}
    (hL : requirements.minLightLevel ≤ requirements.maxLightLevel)
    {a b ℓ : ℚ}
    (hab : (a, b) ∈ segmentPairs (sortedLightBoundaries requirements R))
    (haℓ : a ≤ ℓ) (hℓb : ℓ ≤ b)
    (hpass : canCoverDistanceRange requirements.minDistance
      requirements.maxDistance
      (camerasForLightLevel R ((a + b) / 2)) = true) :
    distanceDecision requirements.minDistance requirements.maxDistance
      (camerasForLightLevel R ℓ) := by
  have hlt : a < b :=
    segmentPairs_rel (sortedLightBoundaries_pairwise_lt requirements R) hab
  have hmid1 : a < (a + b) / 2 := by linarith
  have hmid2 : (a + b) / 2 < b := by linarith
  refine distanceDecision_mono (fun c hc => ?_)
    ((canCoverDistanceRange_iff _ _ _).mp hpass)
  obtain ⟨hcR, hc1, hc2⟩ := mem_camerasForLightLevel.mp hc
  obtain ⟨hca, hcb⟩ := active_on_segment hL hab hcR hmid1 hmid2 hc1 hc2
  refine ⟨c, mem_camerasForLightLevel.mpr
    ⟨hcR, le_trans hca haℓ, le_trans hℓb hcb⟩, le_rfl, le_rfl⟩

/-- Every segment check passing gives the decided distance condition at every
light value of the closed required light range, provided that range is proper
(`minLightLevel < maxLightLevel`). -/
theorem segments_pass_closed {requirements : SoftwareCameraRequirements}
    {R : List HardwareCamera}
    (hLlt : requirements.minLightLevel < requirements.maxLightLevel)
    (hpass : ∀ seg ∈ segmentPairs (sortedLightBoundaries requirements R),
      canCoverDistanceRange requirements.minDistance
        requirements.maxDistance
        (camerasForLightLevel R ((seg.1 + seg.2) / 2)) = true)
    {ℓ : ℚ} (h1 : requirements.minLightLevel ≤ ℓ)
    (h2 : ℓ ≤ requirements.maxLightLevel) :
    distanceDecision requirements.minDistance requirements.maxDistance
      (camerasForLightLevel R ℓ) := by
  have hL := le_of_lt hLlt
  have hsort := sortedLightBoundaries_sorted requirements R
  have hnd := sortedLightBoundaries_nodup requirements R
  have hlomem := minLight_mem_sortedLightBoundaries requirements R
  have hhimem := maxLight_mem_sortedLightBoundaries requirements R
  rcases sorted_locate hsort hlomem hhimem h1 h2 with hmem |
    ⟨a, b, hab, hax, hxb⟩
  · rcases eq_or_lt_of_le h1 with heq | hlo
    · obtain ⟨b, hb⟩ := sorted_succ hsort hlomem hhimem hLlt
      have hlt : requirements.minLightLevel < b := segmentPairs_rel
        (sortedLightBoundaries_pairwise_lt requirements R) hb
      have hp := hpass _ hb
      have h3 : ℓ ≤ b := le_of_lt (lt_of_le_of_lt (le_of_eq heq.symm) hlt)
      exact segment_transfer hL hb (le_of_eq heq) h3 hp
    · obtain ⟨a, ha⟩ := sorted_pred hsort hnd hlomem hmem hlo
      have hlt : a < ℓ := segmentPairs_rel
        (sortedLightBoundaries_pairwise_lt requirements R) ha
      have hp := hpass _ ha
      exact segment_transfer hL ha (le_of_lt hlt) le_rfl hp
  · have hp := hpass _ hab
    exact segment_transfer hL hab (le_of_lt hax) (le_of_lt hxb) hp

/-- The exact condition `canCoverRequirements` decides, for any well-formed
required light range: some camera survives the light pre-filter, and at every
light value strictly inside the required light range the distance condition
decided by `canCoverDistanceRange` holds for the cameras active there. -/
theorem canCoverRequirements_iff (requirements : SoftwareCameraRequirements)
    (hardwareCameras : List HardwareCamera)
    (hL : requirements.minLightLevel ≤ requirements.maxLightLevel) :
    canCoverRequirements requirements hardwareCameras = true ↔
      (relevantCameras requirements hardwareCameras ≠ [] ∧
       ∀ ℓ : ℚ, requirements.minLightLevel < ℓ →
         ℓ < requirements.maxLightLevel →
         distanceDecision requirements.minDistance requirements.maxDistance
           (camerasForLightLevel
             (relevantCameras requirements hardwareCameras) ℓ)) := by
  set R := relevantCameras requirements hardwareCameras with hR
  rw [canCoverRequirements_eq, Bool.and_eq_true, Bool.not_eq_true',
    List.all_eq_true, List.isEmpty_eq_false]
  constructor
  · rintro ⟨hne, hpass⟩
    refine ⟨hne, fun ℓ h1 h2 => ?_⟩
    have hLlt : requirements.minLightLevel < requirements.maxLightLevel :=
      lt_trans h1 h2
    exact segments_pass_closed hLlt (fun seg hseg => hpass seg hseg)
      (le_of_lt h1) (le_of_lt h2)
  · rintro ⟨hne, hopen⟩
    refine ⟨hne, fun seg hseg => ?_⟩
    obtain ⟨a, b⟩ := seg
    have hlt : a < b := segmentPairs_rel
      (sortedLightBoundaries_pairwise_lt requirements R) hseg
    have hamem := (segmentPairs_mem hseg).1
    have hbmem := (segmentPairs_mem hseg).2
    have hra := (sortedLightBoundaries_bounds hL hamem).1
    have hrb := (sortedLightBoundaries_bounds hL hbmem).2
    have hm1 : requirements.minLightLevel < (a + b) / 2 := by
      have : a < (a + b) / 2 := by linarith
      linarith
    have hm2 : (a + b) / 2 < requirements.maxLightLevel := by
      have : (a + b) / 2 < b := by linarith
      linarith
    exact (canCoverDistanceRange_iff _ _ _).mpr (hopen _ hm1 hm2)

/-! ## Permutation invariance helpers -/

/-- Two booleans agreeing as propositions are equal. -/
theorem bool_eq_of_iff {a b : Bool} (h : a = true ↔ b = true) : a = b := by
  cases a <;> cases b <;> simp_all

/-- The collected boundary values of permuted camera lists are permutations
of one another. -/
theorem lightBoundaryValues_perm (requirements : SoftwareCameraRequirements)
    {R₁ R₂ : List HardwareCamera} (hp : R₁.Perm R₂) :
    (lightBoundaryValues requirements R₁).Perm
      (lightBoundaryValues requirements R₂) := by
  induction hp with
  | nil => exact List.Perm.refl _
  | cons x _ ih =>
    rw [lightBoundaryValues, lightBoundaryValues]
    exact ih.append_left _
  | swap x y l =>
    rw [lightBoundaryValues, lightBoundaryValues, lightBoundaryValues,
      lightBoundaryValues, ← List.append_assoc, ← List.append_assoc]
    exact List.Perm.append_right _ List.perm_append_comm
  | trans _ _ ih1 ih2 => exact ih1.trans ih2

/-- Permuted camera lists produce the same sorted boundary list. -/
theorem sortedLightBoundaries_perm_eq
    (requirements : SoftwareCameraRequirements)
    {R₁ R₂ : List HardwareCamera} (hp : R₁.Perm R₂) :
    sortedLightBoundaries requirements R₁ =
      sortedLightBoundaries requirements R₂ := by
  have hv : (requirements.minLightLevel :: requirements.maxLightLevel ::
      lightBoundaryValues requirements R₁).Perm
      (requirements.minLightLevel :: requirements.maxLightLevel ::
        lightBoundaryValues requirements R₂) :=
    ((lightBoundaryValues_perm requirements hp).cons _).cons _
  refine List.eq_of_perm_of_sorted ?_
    (List.sorted_insertionSort _ _) (List.sorted_insertionSort _ _)
  exact (List.perm_insertionSort _ _).trans
    (hv.dedup.trans (List.perm_insertionSort _ _).symm)

/-- `canCoverDistanceRange` only depends on the multiset of cameras. -/
theorem canCoverDistanceRange_perm (minDistance maxDistance : ℚ)
    {cameras cameras' : List HardwareCamera}
    (hp : cameras.Perm cameras') :
    canCoverDistanceRange minDistance maxDistance cameras =
      canCoverDistanceRange minDistance maxDistance cameras' := by
  refine bool_eq_of_iff ?_
  rw [canCoverDistanceRange_iff, canCoverDistanceRange_iff]
  constructor
  · exact distanceDecision_mono
      (fun c hc => ⟨c, hp.subset hc, le_rfl, le_rfl⟩)
  · exact distanceDecision_mono
      (fun c hc => ⟨c, hp.symm.subset hc, le_rfl, le_rfl⟩)

/-- `canCoverRequirements` only depends on the multiset of cameras. -/
theorem canCoverRequirements_perm (requirements : SoftwareCameraRequirements)
    {cameras cameras' : List HardwareCamera}
    (hp : cameras.Perm cameras') :
    canCoverRequirements requirements cameras =
      canCoverRequirements requirements cameras' := by
  have hrel : (relevantCameras requirements cameras).Perm
      (relevantCameras requirements cameras') := hp.filter _
  rw [canCoverRequirements_eq, canCoverRequirements_eq,
    sortedLightBoundaries_perm_eq requirements hrel]
  have hempty : (relevantCameras requirements cameras).isEmpty =
      (relevantCameras requirements cameras').isEmpty := by
    refine bool_eq_of_iff ?_
    rw [List.isEmpty_eq_true, List.isEmpty_eq_true]
    constructor
    · intro h; exact (h ▸ hrel).symm.eq_nil
    · intro h; exact (h ▸ hrel.symm).symm.eq_nil
  rw [hempty]
  have hall : ∀ seg : ℚ × ℚ,
      canCoverDistanceRange requirements.minDistance
        requirements.maxDistance
        (camerasForLightLevel (relevantCameras requirements cameras)
          ((seg.1 + seg.2) / 2)) =
      canCoverDistanceRange requirements.minDistance
        requirements.maxDistance
        (camerasForLightLevel (relevantCameras requirements cameras')
          ((seg.1 + seg.2) / 2)) := by
    intro seg
    exact canCoverDistanceRange_perm _ _ (hrel.filter _)
  have hall2 : (segmentPairs (sortedLightBoundaries requirements
      (relevantCameras requirements cameras'))).all
      (fun seg => canCoverDistanceRange requirements.minDistance
        requirements.maxDistance
        (camerasForLightLevel (relevantCameras requirements cameras)
          ((seg.1 + seg.2) / 2))) =
      (segmentPairs (sortedLightBoundaries requirements
      (relevantCameras requirements cameras'))).all
      (fun seg => canCoverDistanceRange requirements.minDistance
        requirements.maxDistance
        (camerasForLightLevel (relevantCameras requirements cameras')
          ((seg.1 + seg.2) / 2))) := by
    refine bool_eq_of_iff ?_
    rw [List.all_eq_true, List.all_eq_true]
    constructor
    · intro h seg hseg; rw [← hall seg]; exact h seg hseg
    · intro h seg hseg; rw [hall seg]; exact h seg hseg
  rw [hall2]

/-! ## Claim theorems -/

/-- C1 (counterexample): the claimed equivalence fails as stated. For the
requirement with distance `[0, 1]` and the degenerate light interval
`[5, 5]`, and the single camera `farCam` (distance `[10, 11]`, light
`[0, 100]`), `canCoverRequirements` returns `true` although the camera's
region does not contain the rectangle point `(0, 5)`. -/
theorem c1_rect_iff_counterexample :
    ¬ (canCoverRequirements pointLightRequirements [farCam] = true ↔
        unionCoversRect [farCam] pointLightRequirements) := by
  intro h
  have htrue : canCoverRequirements pointLightRequirements [farCam] = true := by
    norm_num [canCoverRequirements, relevantCameras, sortedLightBoundaries,
      lightBoundaryValues, cameraLightBoundaries, segmentPairs,
      camerasForLightLevel, pointLightRequirements, farCam,
      List.insertionSort, List.orderedInsert, List.dedup, List.pwFilter,
      List.filter, List.all]
  obtain ⟨c, hc, hcp⟩ := h.mp htrue 0 5
    (by norm_num [pointLightRequirements])
    (by norm_num [pointLightRequirements])
    (by norm_num [pointLightRequirements])
    (by norm_num [pointLightRequirements])
  obtain rfl := List.mem_singleton.mp hc
  exact absurd hcp.1 (by norm_num [farCam])

/-- C1 (amended): for every requirement that is non-degenerate on both axes
(`minDistance < maxDistance` and `minLightLevel < maxLightLevel`) and every
camera list, `canCoverRequirements` returns `true` if and only if the union
of the cameras' coverage regions contains the whole required rectangle. -/
theorem c1_canCoverRequirements_iff_unionCoversRect
    (requirements : SoftwareCameraRequirements)
    (hardwareCameras : List HardwareCamera)
    (hd : requirements.minDistance < requirements.maxDistance)
    (hl : requirements.minLightLevel < requirements.maxLightLevel) :
    canCoverRequirements requirements hardwareCameras = true ↔
      unionCoversRect hardwareCameras requirements := by
  constructor
  · intro h
    rw [canCoverRequirements_eq, Bool.and_eq_true, Bool.not_eq_true',
      List.isEmpty_eq_false, List.all_eq_true] at h
    obtain ⟨hne, hpass⟩ := h
    intro d ℓ hd1 hd2 hl1 hl2
    have hdd := segments_pass_closed hl (fun seg hseg => hpass seg hseg)
      hl1 hl2
    rcases hdd with ⟨hmm, _⟩ | ⟨_, hcov⟩
    · exact absurd (lt_of_lt_of_le hd hmm) (lt_irrefl _)
    · obtain ⟨c, hc, hcd⟩ := hcov d hd1 hd2
      obtain ⟨hcR, hc1, hc2⟩ := mem_camerasForLightLevel.mp hc
      exact ⟨c, (mem_relevantCameras.mp hcR).1, hcd.1, hcd.2, hc1, hc2⟩
  · intro hcov
    rw [canCoverRequirements_iff _ _ (le_of_lt hl)]
    have hrelmem : ∀ {c : HardwareCamera} {ℓ : ℚ},
        c ∈ hardwareCameras → requirements.minLightLevel ≤ ℓ →
        ℓ ≤ requirements.maxLightLevel → c.minLightLevel ≤ ℓ →
        ℓ ≤ c.maxLightLevel →
        c ∈ relevantCameras requirements hardwareCameras := by
      intro c ℓ hc hℓ1 hℓ2 hc1 hc2
      refine mem_relevantCameras.mpr ⟨hc, ?_⟩
      push_neg
      exact ⟨le_trans hℓ1 hc2, le_trans hc1 hℓ2⟩
    constructor
    · obtain ⟨c, hc, hc1, hc2, hc3, hc4⟩ := hcov requirements.minDistance
        requirements.minLightLevel le_rfl (le_of_lt hd) le_rfl (le_of_lt hl)
      exact List.ne_nil_of_mem (hrelmem hc le_rfl (le_of_lt hl) hc3 hc4)
    · intro ℓ h1 h2
      refine Or.inr ⟨hd, fun p hp1 hp2 => ?_⟩
      obtain ⟨c, hc, hc1, hc2, hc3, hc4⟩ := hcov p ℓ hp1 hp2
        (le_of_lt h1) (le_of_lt h2)
      exact ⟨c, mem_camerasForLightLevel.mpr
        ⟨hrelmem hc (le_of_lt h1) (le_of_lt h2) hc3 hc4, hc3, hc4⟩,
        hc1, hc2⟩

/-- C1 (witness): the amended equivalence at the source's basic example. -/
theorem c1_witness :
    canCoverRequirements basicRequirements basicCameras = true ↔
      unionCoversRect basicCameras basicRequirements :=
  c1_canCoverRequirements_iff_unionCoversRect basicRequirements basicCameras
    (by norm_num [basicRequirements]) (by norm_num [basicRequirements])

/-- C2 (counterexample): the claimed equivalence fails for the degenerate
target `[5, 5]` against the single camera `narrowCam` with distance interval
`[1, 3]`: the function returns `true`, yet the union does not contain 5. -/
theorem c2_distance_iff_counterexample :
    ¬ (canCoverDistanceRange 5 5 [narrowCam] = true ↔
        unionCoversDistance [narrowCam] 5 5) := by
  intro h
  have htrue : canCoverDistanceRange 5 5 [narrowCam] = true := by
    norm_num [canCoverDistanceRange, canCoverDistanceRangeLoop, narrowCam,
      List.insertionSort, List.orderedInsert]
  obtain ⟨c, hc, hcp⟩ := h.mp htrue 5 le_rfl le_rfl
  obtain rfl := List.mem_singleton.mp hc
  exact absurd hcp.2 (by norm_num [narrowCam])

/-- C2 (amended): for every proper target (`minDistance < maxDistance`) and
every camera list, `canCoverDistanceRange` returns `true` if and only if the
union of the cameras' distance intervals contains the whole target. -/
theorem c2_canCoverDistanceRange_iff_unionCovers
    (minDistance maxDistance : ℚ) (cameras : List HardwareCamera)
    (h : minDistance < maxDistance) :
    canCoverDistanceRange minDistance maxDistance cameras = true ↔
      unionCoversDistance cameras minDistance maxDistance := by
  rw [canCoverDistanceRange_iff]
  constructor
  · rintro (⟨hmm, _⟩ | ⟨_, hc⟩)
    · exact absurd (lt_of_lt_of_le h hmm) (lt_irrefl _)
    · exact hc
  · intro hc
    exact Or.inr ⟨h, hc⟩

/-- C2 (witness): the amended equivalence at the source's basic cameras. -/
theorem c2_witness :
    canCoverDistanceRange 1 10 basicCameras = true ↔
      unionCoversDistance basicCameras 1 10 :=
  c2_canCoverDistanceRange_iff_unionCovers 1 10 basicCameras (by norm_num)

/-- C3: when the required light interval is degenerate
(`minLightLevel = maxLightLevel`) and at least one camera survives the light
pre-filter, `canCoverRequirements` returns `true` unconditionally — no
distance coverage is ever checked. -/
theorem c3_degenerate_light_true (requirements : SoftwareCameraRequirements)
    (hardwareCameras : List HardwareCamera)
    (h1 : requirements.minLightLevel = requirements.maxLightLevel)
    (h2 : relevantCameras requirements hardwareCameras ≠ []) :
    canCoverRequirements requirements hardwareCameras = true := by
  rw [canCoverRequirements_iff _ _ (le_of_eq h1)]
  refine ⟨h2, fun ℓ hl1 hl2 => ?_⟩
  have hx := lt_trans hl1 hl2
  rw [h1] at hx
  exact absurd hx (lt_irrefl _)

/-- C3 (witness): the degenerate-light short-circuit on the concrete
point-light requirement with the distance-incapable camera `farCam`. -/
theorem c3_witness :
    canCoverRequirements pointLightRequirements [farCam] = true :=
  c3_degenerate_light_true pointLightRequirements [farCam]
    (by norm_num [pointLightRequirements])
    (by norm_num [relevantCameras, pointLightRequirements, farCam,
      List.filter])

/-- C4: monotonicity, for any requirement whose light interval is
well-formed. Replacing one camera by one with a wider distance and/or light
interval preserves a `true` result, and removing one camera preserves a
`false` result. -/
theorem c4_monotonicity (requirements : SoftwareCameraRequirements)
    (hL : requirements.minLightLevel ≤ requirements.maxLightLevel) :
    (∀ (pre post : List HardwareCamera) (d d' : HardwareCamera),
      d'.minDistance ≤ d.minDistance → d.maxDistance ≤ d'.maxDistance →
      d'.minLightLevel ≤ d.minLightLevel →
      d.maxLightLevel ≤ d'.maxLightLevel →
      canCoverRequirements requirements (pre ++ d :: post) = true →
      canCoverRequirements requirements (pre ++ d' :: post) = true) ∧
    (∀ (pre post : List HardwareCamera) (d : HardwareCamera),
      canCoverRequirements requirements (pre ++ d :: post) = false →
      canCoverRequirements requirements (pre ++ post) = false) := by
  have hmem1 : ∀ (pre post : List HardwareCamera) (d c : HardwareCamera),
      c ∈ pre ++ d :: post → c ∈ pre ++ post ∨ c = d := by
    intro pre post d c hc
    rcases List.mem_append.mp hc with h | h
    · exact Or.inl (List.mem_append.mpr (Or.inl h))
    · rcases List.mem_cons.mp h with h | h
      · exact Or.inr h
      · exact Or.inl (List.mem_append.mpr (Or.inr h))
  have hmem2 : ∀ (pre post : List HardwareCamera) (d c : HardwareCamera),
      c ∈ pre ++ post → c ∈ pre ++ d :: post := by
    intro pre post d c hc
    rcases List.mem_append.mp hc with h | h
    · exact List.mem_append.mpr (Or.inl h)
    · exact List.mem_append.mpr (Or.inr (List.mem_cons_of_mem _ h))
  constructor
  · intro pre post d d' hd1 hd2 hd3 hd4 htrue
    rw [canCoverRequirements_iff _ _ hL] at htrue ⊢
    obtain ⟨hne, hdd⟩ := htrue
    have hlift : ∀ c ∈ relevantCameras requirements (pre ++ d :: post),
        ∃ c' ∈ relevantCameras requirements (pre ++ d' :: post),
          c'.minDistance ≤ c.minDistance ∧
          c.maxDistance ≤ c'.maxDistance ∧
          c'.minLightLevel ≤ c.minLightLevel ∧
          c.maxLightLevel ≤ c'.maxLightLevel := by
      intro c hc
      obtain ⟨hcl, hcond⟩ := mem_relevantCameras.mp hc
      rcases hmem1 pre post d c hcl with h | rfl
      · exact ⟨c, mem_relevantCameras.mpr ⟨hmem2 pre post d' c h, hcond⟩,
          le_rfl, le_rfl, le_rfl, le_rfl⟩
      · push_neg at hcond
        refine ⟨d', mem_relevantCameras.mpr
          ⟨List.mem_append.mpr (Or.inr (List.mem_cons_self _ _)), ?_⟩,
          hd1, hd2, hd3, hd4⟩
        push_neg
        exact ⟨le_trans hcond.1 hd4, le_trans hd3 hcond.2⟩
    constructor
    · obtain ⟨c, hc⟩ := List.exists_mem_of_ne_nil _ hne
      obtain ⟨c', hc', _⟩ := hlift c hc
      exact List.ne_nil_of_mem hc'
    · intro ℓ h1 h2
      refine distanceDecision_mono (fun c hc => ?_) (hdd ℓ h1 h2)
      obtain ⟨hcR, ha1, ha2⟩ := mem_camerasForLightLevel.mp hc
      obtain ⟨c', hc', hh1, hh2, hh3, hh4⟩ := hlift c hcR
      exact ⟨c', mem_camerasForLightLevel.mpr
        ⟨hc', le_trans hh3 ha1, le_trans ha2 hh4⟩, hh1, hh2⟩
  · intro pre post d hfalse
    cases hcase : canCoverRequirements requirements (pre ++ post) with
    | false => rfl
    | true =>
      rw [canCoverRequirements_iff _ _ hL] at hcase
      obtain ⟨hn, hdd⟩ := hcase
      have htrue : canCoverRequirements requirements (pre ++ d :: post) =
          true := by
        rw [canCoverRequirements_iff _ _ hL]
        constructor
        · obtain ⟨c, hc⟩ := List.exists_mem_of_ne_nil _ hn
          obtain ⟨hcl, hcond⟩ := mem_relevantCameras.mp hc
          exact List.ne_nil_of_mem (mem_relevantCameras.mpr
            ⟨hmem2 pre post d c hcl, hcond⟩)
        · intro ℓ h1 h2
          refine distanceDecision_mono (fun c hc => ?_) (hdd ℓ h1 h2)
          obtain ⟨hcR, ha1, ha2⟩ := mem_camerasForLightLevel.mp hc
          obtain ⟨hcl, hcond⟩ := mem_relevantCameras.mp hcR
          exact ⟨c, mem_camerasForLightLevel.mpr
            ⟨mem_relevantCameras.mpr ⟨hmem2 pre post d c hcl, hcond⟩,
              ha1, ha2⟩, le_rfl, le_rfl⟩
      rw [hfalse] at htrue
      simp at htrue

/-- C4 (witness): removing the second gap camera from the source's gap
example keeps the result `false`. -/
theorem c4_witness :
    canCoverRequirements basicRequirements
      ([{ id := "cam1", minDistance := 1, maxDistance := 4
          minLightLevel := 10, maxLightLevel := 1000 }] ++ []) = false :=
  (c4_monotonicity basicRequirements (by norm_num [basicRequirements])).2
    [{ id := "cam1", minDistance := 1, maxDistance := 4
       minLightLevel := 10, maxLightLevel := 1000 }] []
    { id := "cam2", minDistance := 6, maxDistance := 10
      minLightLevel := 10, maxLightLevel := 1000 }
    (by norm_num [canCoverRequirements, relevantCameras,
      sortedLightBoundaries, lightBoundaryValues, cameraLightBoundaries,
      segmentPairs, camerasForLightLevel, canCoverDistanceRange,
      canCoverDistanceRangeLoop, basicRequirements, List.insertionSort,
      List.orderedInsert, List.dedup, List.pwFilter, List.filter, List.all])

/-- C5: order-independence. Both `canCoverRequirements` and
`canCoverDistanceRange` return the same result on any permutation of the
camera list. -/
theorem c5_order_independence (requirements : SoftwareCameraRequirements)
    (cameras cameras' : List HardwareCamera) (hp : cameras.Perm cameras') :
    canCoverRequirements requirements cameras =
      canCoverRequirements requirements cameras' ∧
    ∀ minDistance maxDistance : ℚ,
      canCoverDistanceRange minDistance maxDistance cameras =
        canCoverDistanceRange minDistance maxDistance cameras' :=
  ⟨canCoverRequirements_perm requirements hp,
   fun minDistance maxDistance =>
     canCoverDistanceRange_perm minDistance maxDistance hp⟩

/-- C5 (witness): order-independence at the source's basic example with its
two cameras swapped. -/
theorem c5_witness :
    (canCoverRequirements basicRequirements basicCameras =
      canCoverRequirements basicRequirements
        [{ id := "cam2", minDistance := 4, maxDistance := 10
           minLightLevel := 10, maxLightLevel := 1000 },
         { id := "cam1", minDistance := 1, maxDistance := 5
           minLightLevel := 10, maxLightLevel := 1000 }]) ∧
    ∀ minDistance maxDistance : ℚ,
      canCoverDistanceRange minDistance maxDistance basicCameras =
        canCoverDistanceRange minDistance maxDistance
          [{ id := "cam2", minDistance := 4, maxDistance := 10
             minLightLevel := 10, maxLightLevel := 1000 },
           { id := "cam1", minDistance := 1, maxDistance := 5
             minLightLevel := 10, maxLightLevel := 1000 }] :=
  c5_order_independence basicRequirements basicCameras _
    (List.Perm.swap _ _ _)

/-- C6: with no cameras at all, `canCoverDistanceRange` returns `false` for
every target (degenerate targets included), and `canCoverRequirements`
returns `false` for every requirement. -/
theorem c6_empty_cameras :
    (∀ lo hi : ℚ, canCoverDistanceRange lo hi [] = false) ∧
    (∀ requirements : SoftwareCameraRequirements,
      canCoverRequirements requirements [] = false) := by
  constructor
  · intro lo hi
    rfl
  · intro requirements
    rfl

/-- C7: the light pre-filter keeps exactly the cameras whose light interval
meets the required light range — a camera is discarded precisely when
`maxLightLevel < requirements.minLightLevel` or
`minLightLevel > requirements.maxLightLevel` — and when no camera survives,
`canCoverRequirements` returns `false`. -/
theorem c7_light_prefilter (requirements : SoftwareCameraRequirements)
    (hardwareCameras : List HardwareCamera) :
    (∀ c : HardwareCamera,
      c ∈ relevantCameras requirements hardwareCameras ↔
        (c ∈ hardwareCameras ∧
          ¬(c.maxLightLevel < requirements.minLightLevel ∨
            c.minLightLevel > requirements.maxLightLevel))) ∧
    (relevantCameras requirements hardwareCameras = [] →
      canCoverRequirements requirements hardwareCameras = false) := by
  constructor
  · intro c
    exact mem_relevantCameras
  · intro h
    rw [canCoverRequirements_eq, h]
    rfl

/-- C8: the advanced end-to-end scenario of the source returns `false`, and
in particular the light band around 650 (inside the segment `(500, 800)`,
where only `midRangeCam` is active) already fails distance coverage of
`[1, 15]`. -/
theorem c8_advanced_scenario :
    canCoverRequirements advancedRequirements advancedCameras = false ∧
    canCoverDistanceRange 1 15
      (camerasForLightLevel
        (relevantCameras advancedRequirements advancedCameras) 650) =
      false := by
  constructor
  · norm_num [canCoverRequirements, relevantCameras, sortedLightBoundaries,
      lightBoundaryValues, cameraLightBoundaries, segmentPairs,
      camerasForLightLevel, canCoverDistanceRange, canCoverDistanceRangeLoop,
      advancedRequirements, advancedCameras, List.insertionSort,
      List.orderedInsert, List.dedup, List.pwFilter, List.filter, List.all]
  · norm_num [relevantCameras, camerasForLightLevel, canCoverDistanceRange,
      canCoverDistanceRangeLoop, advancedRequirements, advancedCameras,
      List.insertionSort, List.orderedInsert, List.filter]

/-- C9: for a degenerate target (`minDistance = maxDistance = t`),
`canCoverDistanceRange` returns `true` exactly when some camera has
`minDistance ≤ t` — even when no camera's interval contains `t`, as the
concrete camera with distance interval `[1, 3]` against target `[5, 5]`
shows. -/
theorem c9_degenerate_target :
    (∀ (t : ℚ) (cameras : List HardwareCamera),
      canCoverDistanceRange t t cameras = true ↔
        ∃ c ∈ cameras, c.minDistance ≤ t) ∧
    (canCoverDistanceRange 5 5 [narrowCam] = true ∧
      ¬ coversDistancePoint narrowCam 5) := by
  refine ⟨fun t cameras => ?_, ?_, ?_⟩
  · rw [canCoverDistanceRange_iff]
    constructor
    · rintro (⟨_, hex⟩ | ⟨hlt, _⟩)
      · exact hex
      · exact absurd hlt (lt_irrefl _)
    · intro hex
      exact Or.inl ⟨le_rfl, hex⟩
  · norm_num [canCoverDistanceRange, canCoverDistanceRangeLoop, narrowCam,
      List.insertionSort, List.orderedInsert]
  · intro h
    exact absurd h.2 (by norm_num [narrowCam])

/-- In a `Forall₂`-related pair of lists, every member of the left list has a
related member of the right list. -/
theorem forall2_mem_left {R : HardwareCamera → HardwareCamera → Prop} :
    ∀ {l₁ l₂ : List HardwareCamera}, List.Forall₂ R l₁ l₂ →
    ∀ {a : HardwareCamera}, a ∈ l₁ → ∃ b ∈ l₂, R a b := by
  intro l₁ l₂ h
  induction h with
  | nil => intro a ha; simp at ha
  | cons hr _ ih =>
    intro a ha
    rcases List.mem_cons.mp ha with rfl | ha2
    · exact ⟨_, List.mem_cons_self _ _, hr⟩
    · obtain ⟨b, hb, hrb⟩ := ih ha2
      exact ⟨b, List.mem_cons_of_mem _ hb, hrb⟩

/-- In a `Forall₂`-related pair of lists, every member of the right list has
a related member of the left list. -/
theorem forall2_mem_right {R : HardwareCamera → HardwareCamera → Prop} :
    ∀ {l₁ l₂ : List HardwareCamera}, List.Forall₂ R l₁ l₂ →
    ∀ {b : HardwareCamera}, b ∈ l₂ → ∃ a ∈ l₁, R a b := by
  intro l₁ l₂ h
  induction h with
  | nil => intro b hb; simp at hb
  | cons hr _ ih =>
    intro b hb
    rcases List.mem_cons.mp hb with rfl | hb2
    · exact ⟨_, List.mem_cons_self _ _, hr⟩
    · obtain ⟨a, ha, hra⟩ := ih hb2
      exact ⟨a, List.mem_cons_of_mem _ ha, hra⟩

/-- C10: `canCoverDistanceRange` does not depend on the ids or light levels
of the cameras: two lists agreeing pointwise on `minDistance` and
`maxDistance` give the same result for every target. -/
theorem c10_distance_noninterference
    (cameras cameras' : List HardwareCamera)
    (h : List.Forall₂ (fun a b => a.minDistance = b.minDistance ∧
      a.maxDistance = b.maxDistance) cameras cameras')
    (minDistance maxDistance : ℚ) :
    canCoverDistanceRange minDistance maxDistance cameras =
      canCoverDistanceRange minDistance maxDistance cameras' := by
  refine bool_eq_of_iff ?_
  rw [canCoverDistanceRange_iff, canCoverDistanceRange_iff]
  constructor
  · refine distanceDecision_mono (fun c hc => ?_)
    obtain ⟨b, hb, h1, h2⟩ := forall2_mem_left h hc
    exact ⟨b, hb, le_of_eq h1.symm, le_of_eq h2⟩
  · refine distanceDecision_mono (fun c hc => ?_)
    obtain ⟨a, ha, h1, h2⟩ := forall2_mem_right h hc
    exact ⟨a, ha, le_of_eq h1, le_of_eq h2.symm⟩

/-- C10 (witness): two single-camera lists differing only in id and light
levels decide the target `[1, 10]` identically. -/
theorem c10_witness :
    canCoverDistanceRange 1 10
      [{ id := "a", minDistance := 1, maxDistance := 5
         minLightLevel := 0, maxLightLevel := 10 }] =
    canCoverDistanceRange 1 10
      [{ id := "b", minDistance := 1, maxDistance := 5
         minLightLevel := 99, maxLightLevel := 999 }] :=
  c10_distance_noninterference _ _
    (List.Forall₂.cons ⟨rfl, rfl⟩ List.Forall₂.nil) 1 10
